import Mathlib

/-!
Verification of the speedlog asynchronous logger.

The development shallowly embeds the `package speedlog` library: a `Logger`
holds an atomic level threshold, a bounded FIFO channel of formatted byte
records, a `sync.Pool` of byte buffers, a list of buffered sinks, a cached
formatted-timestamp snapshot, a broadcast shutdown channel (`done`) and a
`sync.Once` shutdown latch.  Machine state is `LoggerState`; byte strings are
`List Char`; the two-way `select` in `log` is modelled by an explicit `Branch`
choice that is only valid when the corresponding communication is ready
(`logStep` returns `none` for a branch that cannot fire, so a state in which
every branch returns `none` is a blocked producer).  `closeState` performs the
shutdown work of `Close` (signal, drain, flush, close sinks) and `closeTrace`
records the same work as an ordered list of sink events, used for the
temporal drain-before-close properties.
-/

namespace Speedlog

/-- Byte strings of the embedded program. -/
abbrev Bytes := List Char

/-- Level constant `DEBUG = iota` (0). -/
def DEBUG : Int := 0

/-- Level constant `INFO` (1). -/
def INFO : Int := 1

/-- Level constant `WARN` (2). -/
def WARN : Int := 2

/-- Level constant `ERROR` (3). -/
def ERROR : Int := 3

/-- Source array `levelNames = [...]string{"DEBUG", "INFO", "WARN", "ERROR"}`. -/
def levelNames : List String := ["DEBUG", "INFO", "WARN", "ERROR"]

/-- The level tag appended by `log`: `levelNames[level]` when
`level >= 0 && level < len(levelNames)`, otherwise the literal `"UNK"`. -/
def levelTag (level : Int) : String :=
  if 0 ≤ level ∧ level < (levelNames.length : Int) then levelNames.getD level.toNat ""
  else "UNK"

/-- One sink: its `bufio.Writer` buffer (`buffered`), the bytes already pushed
to the underlying writer (`flushed`), whether the underlying writer implements
`io.Closer`, and how many times `Close` has been called on it. -/
structure Sink where
  buffered : Bytes
  flushed : Bytes
  isCloser : Bool
  closeCount : Nat
deriving DecidableEq

/-- Default sink value used with `List.getD`. -/
def defaultSink : Sink := { buffered := [], flushed := [], isCloser := false, closeCount := 0 }

/-- State of one `Logger`: the stored `int32` level threshold, the sinks, the
contents of the bounded channel `ch` (FIFO, oldest first), the channel
capacity, whether `done` has been closed, whether the `sync.Once` shutdown
latch has fired, the published timestamp snapshot (`ts atomic.Value`), and the
number of free buffers in `bufPool`. -/
structure LoggerState where
  level : Int
  sinks : List Sink
  queue : List Bytes
  capacity : Nat
  done : Bool
  closeDone : Bool
  ts : Bytes
  pool : Nat
deriving DecidableEq

/-- Go's `int32(n)` conversion: truncation to 32 bits, two's complement. -/
def toInt32 (n : Int) : Int :=
  let m := n % 4294967296
  if m < 2147483648 then m else m - 4294967296

/-- Method `IsLevelEnabled`: `level >= int(atomic.LoadInt32(&l.level))`. -/
def IsLevelEnabled (s : LoggerState) (level : Int) : Bool :=
  decide (s.level ≤ level)

/-- Method `SetLevel`: `atomic.StoreInt32(&l.level, int32(level))` (no range check in
the speedlog package). -/
def SetLevel (s : LoggerState) (level : Int) : LoggerState :=
  { s with level := toInt32 level }

/-- Method `GetLevel`: `int(atomic.LoadInt32(&l.level))`. -/
def GetLevel (s : LoggerState) : Int := s.level

/-- The record bytes built by `log`: timestamp snapshot, space, level tag,
space, message, newline. -/
def formatRecord (ts : Bytes) (level : Int) (msg : Bytes) : Bytes :=
  ts ++ [' '] ++ (levelTag level).data ++ [' '] ++ msg ++ ['\n']

/-- Which case of the two-way `select` at the end of `log` fires:
`send` is `l.ch <- buf`, `doneCh` is `<-l.done`. -/
inductive Branch where
  | send
  | doneCh
deriving DecidableEq

/-- Observable outcome of one `log` call. -/
inductive LogResult where
  | noop
  | sent
  | dropped
deriving DecidableEq

/-- One `log(level, msg)` call.  Early return when the level check fails;
otherwise the record is formatted from the pooled buffer and the timestamp
snapshot, and the final `select` fires branch `b`: the send case requires
channel space and enqueues the record; the done case requires `done` closed,
discards the record and returns the buffer to the pool.  `none` means branch
`b` is not ready (if no branch is ready the caller is suspended in `select`). -/
def logStep (s : LoggerState) (level : Int) (msg : Bytes) (b : Branch) :
    Option (LoggerState × LogResult) :=
  if s.level ≤ level then
    match b with
    | .send =>
        if s.queue.length < s.capacity then
          some ({ s with pool := s.pool - 1,
                         queue := s.queue ++ [formatRecord s.ts level msg] }, .sent)
        else none
    | .doneCh =>
        if s.done then some ({ s with pool := s.pool - 1 + 1 }, .dropped)
        else none
  else some (s, .noop)

/-- One `logf(level, format, args...)` call: own level check, then `log` on the
`fmt.Sprintf` result (`msg` stands for the formatted text, produced on the
caller's thread). -/
def logfStep (s : LoggerState) (level : Int) (msg : Bytes) (b : Branch) :
    Option (LoggerState × LogResult) :=
  if s.level ≤ level then logStep s level msg b else some (s, .noop)

/-- Refresh interval of the timestamp cache: `time.NewTicker(100 * time.Millisecond)`. -/
def timestampIntervalMs : Nat := 100

/-- Flush ticker of the writer loop: `time.NewTicker(500 * time.Millisecond)`. -/
def flushIntervalMs : Nat := 500

/-- One tick of `timestampLoop`: if `done` is closed the loop exits without
storing; otherwise the freshly formatted wall-clock text (`nowFormatted`,
produced by `time.Now().AppendFormat`) is atomically published. -/
def timestampStep (s : LoggerState) (nowFormatted : Bytes) : LoggerState :=
  if s.done then s else { s with ts := nowFormatted }

/-- The writer loop's fan-out of one record: `for _, bw := range l.bufs { bw.Write(line) }`. -/
def writeRecord (sinks : List Sink) (line : Bytes) : List Sink :=
  sinks.map fun sk => { sk with buffered := sk.buffered ++ line }

/-- Model of `bufio.Writer.Flush`: push the buffer to the underlying writer. -/
def flushSink (sk : Sink) : Sink :=
  { sk with flushed := sk.flushed ++ sk.buffered, buffered := [] }

/-- The `flushAll` helper of the writer loop: flush every sink buffer. -/
def flushAllSinks (sinks : List Sink) : List Sink := sinks.map flushSink

/-- The running writer loop servicing one channel receive: dequeue the oldest
record, write it to every sink buffer, return its buffer to the pool. -/
def writerStep (s : LoggerState) : LoggerState :=
  match s.queue with
  | [] => s
  | line :: rest =>
      { s with queue := rest, sinks := writeRecord s.sinks line, pool := s.pool + 1 }

/-- The drain phase of the writer loop after `done` fires: non-blocking poll,
one record at a time, writing each to every sink buffer, until the channel is
empty (buffer pool returns are accounted in `closeState`). -/
def drainSinks (sinks : List Sink) : List Bytes → List Sink
  | [] => sinks
  | line :: rest => drainSinks (writeRecord sinks line) rest

/-- Per-writer close performed by `Close`: close the writer when it is an `io.Closer`. -/
def closeCloser (sk : Sink) : Sink :=
  if sk.isCloser then { sk with closeCount := sk.closeCount + 1 } else sk

/-- Method `Close()`: under the `sync.Once` latch, close `done`, wait for the writer
loop (which drains the channel and then flushes every sink once) and the
timestamp loop to exit, flush every sink again, then close every underlying
writer that implements `io.Closer`.  A second call finds the latch fired and
does nothing. -/
def closeState (s : LoggerState) : LoggerState :=
  if s.closeDone then s
  else
    { level := s.level
      sinks := (flushAllSinks (flushAllSinks (drainSinks s.sinks s.queue))).map closeCloser
      queue := []
      capacity := s.capacity
      done := true
      closeDone := true
      ts := s.ts
      pool := s.pool + s.queue.length }

/-- Sink events, used to state the order in which shutdown work happens:
a write of record bytes to sink `i`'s buffer, a flush of sink `i`, and a
close call on sink `i`'s underlying writer. -/
inductive Ev where
  | write (i : Nat) (line : Bytes)
  | flush (i : Nat)
  | closeSink (i : Nat)
deriving DecidableEq

/-- Phase of an event in the shutdown protocol: writes (drain) before flushes
before closes. -/
def Ev.rank : Ev → Nat
  | .write _ _ => 0
  | .flush _ => 1
  | .closeSink _ => 2

/-- Write events of the drain phase: for each queued record in FIFO order, a
write to each of the `n` sinks in sink-list order. -/
def drainWrites (n : Nat) (q : List Bytes) : List Ev :=
  q.flatMap fun line => (List.range n).map fun i => Ev.write i line

/-- Flush events of one `flushAll` pass over `n` sinks. -/
def flushEvs (n : Nat) : List Ev := (List.range n).map Ev.flush

/-- Close events of `Close`'s final loop over the writers, starting at sink
index `i`: one `closeSink` per sink whose underlying writer is an `io.Closer`. -/
def closeEvs : Nat → List Sink → List Ev
  | _, [] => []
  | i, sk :: rest => (if sk.isCloser then [Ev.closeSink i] else []) ++ closeEvs (i + 1) rest

/-- The ordered event trace of one effective `Close()`: drain writes, the
writer loop's final flush, `Close`'s own flush, then the close calls.  A
`Close` on an already-closed logger performs no work. -/
def closeTrace (s : LoggerState) : List Ev :=
  if s.closeDone then []
  else
    drainWrites s.sinks.length s.queue ++ flushEvs s.sinks.length ++
      flushEvs s.sinks.length ++ closeEvs 0 s.sinks

/-- The sequence of records written to sink `i`, in trace order. -/
def writesTo (i : Nat) (evs : List Ev) : List Bytes :=
  evs.filterMap fun e =>
    match e with
    | .write j line => if j = i then some line else none
    | _ => none

/-- A sequence of `log` calls by one producer, each completing through the
send case of the `select`. -/
def logAll (s : LoggerState) : List (Int × Bytes) → Option LoggerState
  | [] => some s
  | (lvl, m) :: rest =>
      match logStep s lvl m .send with
      | some (s', _) => logAll s' rest
      | none => none

/-- A fixed formatted-timestamp snapshot used in concrete test states. -/
def sampleTs : Bytes := "2026-10-11 00:00:00.000".data

/-- A file-like sink whose underlying writer implements `io.Closer`. -/
def sinkA : Sink := { buffered := [], flushed := [], isCloser := true, closeCount := 0 }

/-- A stdout-like sink whose underlying writer is not an `io.Closer`. -/
def sinkB : Sink := { buffered := [], flushed := [], isCloser := false, closeCount := 0 }

/-- A running logger: level `INFO`, two sinks, empty queue, capacity 8. -/
def runningState : LoggerState :=
  { level := 1, sinks := [sinkA, sinkB], queue := [], capacity := 8,
    done := false, closeDone := false, ts := sampleTs, pool := 1 }

/-- A running logger whose queue holds two pending records. -/
def queuedState : LoggerState :=
  { runningState with queue := ["a\n".data, "b\n".data] }

/-- A running logger at threshold `WARN`. -/
def warnState : LoggerState := { runningState with level := 2 }

/-- A logger on which `Close()` has completed: `done` closed, latch fired,
queue drained. -/
def closedState : LoggerState := { runningState with done := true, closeDone := true }

theorem drainSinks_eq (sinks : List Sink) (q : List Bytes) :
    drainSinks sinks q = sinks.map fun sk => { sk with buffered := sk.buffered ++ q.flatten } := by
  induction q generalizing sinks with
  | nil => simp [drainSinks]
  | cons line rest ih =>
      simp [drainSinks, writeRecord, ih, List.map_map, Function.comp_def, List.append_assoc]

theorem closeState_sinks (s : LoggerState) (h : s.closeDone = false) :
    (closeState s).sinks = s.sinks.map fun sk =>
      { buffered := []
        flushed := sk.flushed ++ sk.buffered ++ s.queue.flatten
        isCloser := sk.isCloser
        closeCount := if sk.isCloser then sk.closeCount + 1 else sk.closeCount } := by
  simp only [closeState, h, Bool.false_eq_true, if_false, drainSinks_eq,
    flushAllSinks, flushSink, List.map_map]
  refine List.map_congr_left fun sk _ => ?_
  by_cases hc : sk.isCloser <;>
    simp [Function.comp_def, closeCloser, flushSink, hc, List.append_assoc]

theorem getD_map_of_lt {α β : Type} (f : α → β) (l : List α) (i : Nat)
    (hi : i < l.length) (d : α) (d' : β) :
    (l.map f).getD i d' = f (l.getD i d) := by
  rw [List.getD_eq_getElem?_getD, List.getD_eq_getElem?_getD, List.getElem?_map,
    List.getElem?_eq_getElem hi]
  simp

theorem closeState_of_closeDone (s : LoggerState) (h : s.closeDone = true) :
    closeState s = s := by
  unfold closeState
  rw [if_pos h]

theorem closeTrace_of_closeDone (s : LoggerState) (h : s.closeDone = true) :
    closeTrace s = [] := by
  unfold closeTrace
  rw [if_pos h]

theorem closeState_closeDone (s : LoggerState) : (closeState s).closeDone = true := by
  by_cases h : s.closeDone
  · rw [closeState_of_closeDone s h]; exact h
  · unfold closeState
    rw [if_neg h]

theorem writesTo_append (i : Nat) (a b : List Ev) :
    writesTo i (a ++ b) = writesTo i a ++ writesTo i b := by
  simp [writesTo, List.filterMap_append]

theorem writesTo_flushEvs (i n : Nat) : writesTo i (flushEvs n) = [] := by
  simp [writesTo, flushEvs, List.filterMap_map, Function.comp_def]

theorem writesTo_closeEvs (i k : Nat) (sinks : List Sink) :
    writesTo i (closeEvs k sinks) = [] := by
  induction sinks generalizing k with
  | nil => simp [closeEvs, writesTo]
  | cons sk rest ih =>
      rw [closeEvs, writesTo_append, ih]
      by_cases hc : sk.isCloser <;> simp [hc, writesTo]

theorem writesTo_range_map (i n : Nat) (line : Bytes) :
    writesTo i ((List.range n).map fun j => Ev.write j line) =
      if i < n then [line] else [] := by
  induction n with
  | zero => simp [writesTo]
  | succ n ih =>
      rw [List.range_succ, List.map_append, writesTo_append, ih]
      by_cases h1 : i < n
      · have h2 : i < n + 1 := by omega
        have hne : ¬ n = i := by omega
        simp [h1, h2, writesTo, hne]
      · by_cases h3 : i = n
        · subst h3
          simp [h1, writesTo]
        · have h2 : ¬ i < n + 1 := by omega
          have hne : ¬ n = i := by omega
          simp [h1, h2, writesTo, hne]

theorem writesTo_drainWrites (i n : Nat) (q : List Bytes) (hi : i < n) :
    writesTo i (drainWrites n q) = q := by
  induction q with
  | nil => simp [drainWrites, writesTo]
  | cons line rest ih =>
      rw [drainWrites, List.flatMap_cons, writesTo_append, writesTo_range_map, if_pos hi]
      rw [drainWrites] at ih
      rw [ih]
      rfl

theorem writesTo_closeTrace (s : LoggerState) (h : s.closeDone = false)
    (i : Nat) (hi : i < s.sinks.length) :
    writesTo i (closeTrace s) = s.queue := by
  unfold closeTrace
  rw [if_neg (by simp [h])]
  simp [writesTo_append, writesTo_drainWrites _ _ _ hi, writesTo_flushEvs, writesTo_closeEvs]

theorem rank_of_mem_drainWrites (e : Ev) (n : Nat) (q : List Bytes)
    (h : e ∈ drainWrites n q) : e.rank = 0 := by
  rw [drainWrites, List.mem_flatMap] at h
  obtain ⟨line, -, hm⟩ := h
  rw [List.mem_map] at hm
  obtain ⟨j, -, rfl⟩ := hm
  rfl

theorem rank_of_mem_flushEvs (e : Ev) (n : Nat) (h : e ∈ flushEvs n) : e.rank = 1 := by
  rw [flushEvs, List.mem_map] at h
  obtain ⟨j, -, rfl⟩ := h
  rfl

theorem rank_of_mem_closeEvs (e : Ev) (k : Nat) (sinks : List Sink)
    (h : e ∈ closeEvs k sinks) : e.rank = 2 := by
  induction sinks generalizing k with
  | nil => simp [closeEvs] at h
  | cons sk rest ih =>
      rw [closeEvs, List.mem_append] at h
      rcases h with h | h
      · by_cases hc : sk.isCloser
        · simp [hc] at h
          subst h; rfl
        · simp [hc] at h
      · exact ih (k + 1) h

theorem logStep_send_eq (s : LoggerState) (lvl : Int) (m : Bytes)
    (hpass : s.level ≤ lvl) (hroom : s.queue.length < s.capacity) :
    logStep s lvl m .send =
      some ({ s with pool := s.pool - 1,
                     queue := s.queue ++ [formatRecord s.ts lvl m] }, .sent) := by
  simp [logStep, hpass, hroom]

theorem toInt32_eq_self (L : Int) (h1 : -2147483648 ≤ L) (h2 : L < 2147483648) :
    toInt32 L = L := by
  simp only [toInt32]
  split <;> omega

theorem levelNames_length_int : (levelNames.length : Int) = 4 := by
  simp [levelNames]

theorem levelTag_of_in_range (lvl : Int) (h1 : 0 ≤ lvl) (h2 : lvl < 4) :
    levelTag lvl = levelNames.getD lvl.toNat "" := by
  rw [levelTag, if_pos]
  exact ⟨h1, by rw [levelNames_length_int]; exact h2⟩

theorem levelTag_of_out_of_range (lvl : Int) (h : lvl < 0 ∨ 4 ≤ lvl) :
    levelTag lvl = "UNK" := by
  rw [levelTag, if_neg]
  rw [levelNames_length_int]
  omega

theorem logfStep_eq (s : LoggerState) (lvl : Int) (m : Bytes) (b : Branch) :
    logfStep s lvl m b = logStep s lvl m b := by
  by_cases hp : s.level ≤ lvl <;> simp [logfStep, logStep, hp]

/-- C1: while the Logger is Running (`done` not closed), a `log` call that
passes the level check never silently loses its record: every branch of the
final `select` that can complete enqueues the record at the tail of the queue
(the shutdown branch is not ready while Running, so no path discards the
record), and when the queue is full no branch is ready at all, i.e. the
producer suspends in the `select` until space frees or shutdown fires. -/
theorem log_running_never_lost (s : LoggerState) (lvl : Int) (m : Bytes)
    (hrun : s.done = false) (hpass : s.level ≤ lvl) :
    (∀ b s' r, logStep s lvl m b = some (s', r) →
        r = LogResult.sent ∧ s'.queue = s.queue ++ [formatRecord s.ts lvl m]) ∧
    (s.capacity ≤ s.queue.length → ∀ b, logStep s lvl m b = none) := by
  constructor
  · intro b s' r hstep
    cases b with
    | send =>
        by_cases hq : s.queue.length < s.capacity
        · rw [logStep_send_eq s lvl m hpass hq] at hstep
          simp only [Option.some.injEq, Prod.mk.injEq] at hstep
          obtain ⟨h1, h2⟩ := hstep
          exact ⟨h2.symm, by rw [← h1]⟩
        · simp [logStep, hpass, hq] at hstep
    | doneCh =>
        simp [logStep, hpass, hrun] at hstep
  · intro hfull b
    have hq : ¬ s.queue.length < s.capacity := by omega
    cases b with
    | send => simp [logStep, hpass, hq]
    | doneCh => simp [logStep, hpass, hrun]

/-- C1 witness: a concrete running logger with a free queue slot. -/
theorem log_running_never_lost_witness :
    runningState.done = false ∧ runningState.level ≤ INFO ∧
      ((∀ b s' r, logStep runningState INFO "hi".data b = some (s', r) →
          r = LogResult.sent ∧
            s'.queue =
              runningState.queue ++ [formatRecord runningState.ts INFO "hi".data]) ∧
        (runningState.capacity ≤ runningState.queue.length →
          ∀ b, logStep runningState INFO "hi".data b = none)) :=
  ⟨by decide, by decide,
    log_running_never_lost runningState INFO "hi".data (by decide) (by decide)⟩

/-- C3: `IsLevelEnabled L` is exactly `L ≥` the current threshold; with the
threshold at `WARN`, `log(INFO, m)` returns with the state unchanged (zero
bytes reach any sink), while `log(ERROR, m)` enqueues a record carrying `m`
that, once the writer drains and flushes, appears in every sink's flushed
output. -/
theorem level_threshold_filtering (s : LoggerState) (m : Bytes)
    (hclosed : s.closeDone = false) (hw : s.level = WARN)
    (hroom : s.queue.length < s.capacity) :
    (∀ L, IsLevelEnabled s L = decide (s.level ≤ L)) ∧
    (∀ b, logStep s INFO m b = some (s, LogResult.noop)) ∧
    (∃ s', logStep s ERROR m .send = some (s', LogResult.sent) ∧
      s'.queue = s.queue ++ [formatRecord s.ts ERROR m] ∧
      ∀ i, i < s.sinks.length →
        ((closeState s').sinks.getD i defaultSink).flushed =
          (s.sinks.getD i defaultSink).flushed ++ (s.sinks.getD i defaultSink).buffered ++
            s.queue.flatten ++ formatRecord s.ts ERROR m) := by
  refine ⟨fun L => rfl, ?_, ?_⟩
  · intro b
    simp [logStep, hw, WARN, INFO]
  · refine ⟨{ s with pool := s.pool - 1, queue := s.queue ++ [formatRecord s.ts ERROR m] },
      logStep_send_eq s ERROR m (by rw [hw]; decide) hroom, rfl, ?_⟩
    intro i hi
    have hc2 : LoggerState.closeDone { s with pool := s.pool - 1, queue := s.queue ++ [formatRecord s.ts ERROR m] } = false := hclosed
    rw [closeState_sinks _ hc2, getD_map_of_lt _ _ i hi defaultSink defaultSink]
    simp [List.flatten_append, List.append_assoc]

/-- C3 witness: the concrete `WARN`-threshold logger. -/
theorem level_threshold_filtering_witness :
    warnState.closeDone = false ∧ warnState.level = WARN ∧
      warnState.queue.length < warnState.capacity ∧
      (∀ b, logStep warnState INFO "x".data b = some (warnState, LogResult.noop)) :=
  ⟨by decide, by decide, by decide,
    (level_threshold_filtering warnState "x".data (by decide) (by decide) (by decide)).2.1⟩

/-- C4: `Close()` is idempotent.  The first call leaves the `sync.Once` latch
fired; a second `Close` on the resulting state is a total no-op — it changes
nothing (so the shutdown work of signalling, draining, flushing and closing
sinks happens exactly once) and its event trace is empty.  Being a total
function, it neither panics nor returns an error. -/
theorem close_idempotent (s : LoggerState) :
    (closeState s).closeDone = true ∧
    closeState (closeState s) = closeState s ∧
    closeTrace (closeState s) = [] :=
  ⟨closeState_closeDone s,
   closeState_of_closeDone _ (closeState_closeDone s),
   closeTrace_of_closeDone _ (closeState_closeDone s)⟩

/-- C6: the record built by `log` carries exactly the published timestamp
snapshot `l.ts` — a single load, with the snapshot left untouched by the hot
path — while the background `timestampLoop`, on its fixed 100 ms ticker, is
the (only) transition that publishes a freshly formatted wall-clock string,
and it stops publishing once shutdown is observed. -/
theorem timestamp_cached_hot_path (s : LoggerState) (lvl : Int) (m : Bytes)
    (hrun : s.done = false) (hpass : s.level ≤ lvl)
    (hroom : s.queue.length < s.capacity) :
    (∃ s', logStep s lvl m .send = some (s', LogResult.sent) ∧ s'.ts = s.ts ∧
        s'.queue.getLast? =
          some (s.ts ++ [' '] ++ (levelTag lvl).data ++ [' '] ++ m ++ ['\n'])) ∧
    (∀ nowFormatted, timestampStep s nowFormatted = { s with ts := nowFormatted }) ∧
    (∀ t : LoggerState, t.done = true → ∀ nowFormatted, timestampStep t nowFormatted = t) ∧
    timestampIntervalMs = 100 := by
  refine ⟨⟨_, logStep_send_eq s lvl m hpass hroom, rfl, ?_⟩, ?_, ?_, rfl⟩
  · show (s.queue ++ [formatRecord s.ts lvl m]).getLast? = _
    rw [List.getLast?_concat]
    rfl
  · intro nf
    simp [timestampStep, hrun]
  · intro t ht nf
    simp [timestampStep, ht]

/-- C6 witness: a concrete running logger; the emitted record starts with the
cached snapshot. -/
theorem timestamp_cached_hot_path_witness :
    runningState.done = false ∧ runningState.level ≤ ERROR ∧
      runningState.queue.length < runningState.capacity ∧
      (∃ s', logStep runningState ERROR "t".data .send = some (s', LogResult.sent) ∧
        s'.ts = runningState.ts ∧
        s'.queue.getLast? =
          some (runningState.ts ++ [' '] ++ (levelTag ERROR).data ++ [' '] ++
            "t".data ++ ['\n'])) :=
  ⟨by decide, by decide, by decide,
    (timestamp_cached_hot_path runningState ERROR "t".data (by decide) (by decide)
      (by decide)).1⟩

/-- C9: `SetLevel` stores the level through Go's `int32` conversion and
`GetLevel` reads it back, so for every level value in the `int32` range
(which covers all levels `DEBUG..ERROR`) the read returns exactly the level
written; the write is immediately visible to the level checks of subsequent
calls, and touches nothing else in the logger. -/
theorem set_get_level_roundtrip (s : LoggerState) (L : Int)
    (h1 : -2147483648 ≤ L) (h2 : L < 2147483648) :
    GetLevel (SetLevel s L) = L ∧
    (∀ X, IsLevelEnabled (SetLevel s L) X = decide (L ≤ X)) ∧
    (SetLevel s L).queue = s.queue ∧ (SetLevel s L).sinks = s.sinks ∧
    (SetLevel s L).ts = s.ts := by
  have hr : toInt32 L = L := toInt32_eq_self L h1 h2
  refine ⟨?_, ?_, rfl, rfl, rfl⟩
  · simp [GetLevel, SetLevel, hr]
  · intro X
    simp [IsLevelEnabled, SetLevel, hr]

/-- C9 witness: `set_level(WARN)` then `get_level()` returns `WARN`, and the
new threshold governs `is_enabled` immediately. -/
theorem set_get_level_roundtrip_witness :
    -2147483648 ≤ WARN ∧ WARN < 2147483648 ∧
      GetLevel (SetLevel runningState WARN) = WARN ∧
      (∀ X, IsLevelEnabled (SetLevel runningState WARN) X = decide (WARN ≤ X)) :=
  ⟨by decide, by decide,
    (set_get_level_roundtrip runningState WARN (by decide) (by decide)).1,
    (set_get_level_roundtrip runningState WARN (by decide) (by decide)).2.1⟩

/-- C10: a `log` call whose level is outside `DEBUG..ERROR` but passes the
threshold check still produces a well-formed record, with the literal tag
`"UNK"` in place of an out-of-bounds `levelNames` index; `logStep` is a total
function, so no such call panics. -/
theorem unknown_level_tag_safe (s : LoggerState) (lvl : Int) (m : Bytes)
    (hpass : s.level ≤ lvl) (hroom : s.queue.length < s.capacity)
    (hout : lvl < 0 ∨ 4 ≤ lvl) :
    ∃ s', logStep s lvl m .send = some (s', LogResult.sent) ∧
      s'.queue.getLast? =
        some (s.ts ++ [' '] ++ "UNK".data ++ [' '] ++ m ++ ['\n']) := by
  refine ⟨_, logStep_send_eq s lvl m hpass hroom, ?_⟩
  show (s.queue ++ [formatRecord s.ts lvl m]).getLast? = _
  rw [List.getLast?_concat, formatRecord, levelTag_of_out_of_range lvl hout]

/-- C10 witness: level 7 with threshold `INFO` yields a record tagged `UNK`. -/
theorem unknown_level_tag_safe_witness :
    runningState.level ≤ 7 ∧ runningState.queue.length < runningState.capacity ∧
      ((7 : Int) < 0 ∨ 4 ≤ (7 : Int)) ∧
      (∃ s', logStep runningState 7 "m".data .send = some (s', LogResult.sent) ∧
        s'.queue.getLast? =
          some (runningState.ts ++ [' '] ++ "UNK".data ++ [' '] ++ "m".data ++ ['\n'])) :=
  ⟨by decide, by decide, by decide,
    unknown_level_tag_safe runningState 7 "m".data (by decide) (by decide) (by decide)⟩

/-- C7 counterexample: after `Close()` has completed (`done` closed, latch
fired, queue drained), both cases of the `select` in `log` are ready, and Go
may pick the send case.  On the concrete closed logger with one pooled buffer,
the send case is a valid completion of `log(ERROR, "x")`: the record is placed
on the never-again-consumed queue and the pool ends with zero buffers — the
acquired buffer is *not* released back to the pool, contradicting the claim
that every post-close call immediately returns its buffer to the pool. -/
theorem post_close_buffer_not_pooled_cex :
    closedState.done = true ∧ closedState.closeDone = true ∧ closedState.pool = 1 ∧
    logStep closedState ERROR "x".data Branch.send =
      some ({ closedState with pool := 0, queue := [formatRecord closedState.ts ERROR "x".data] }, LogResult.sent) := by
  decide

/-- C7 (amended): after `Close()` has returned, every subsequent `log`/`logf`
call leaves the sinks untouched (writes nothing to any sink), cannot deadlock
(the shutdown branch of the `select` is always ready) and, being a total
function, cannot panic; a call that takes the shutdown branch returns its
buffer to the pool, but the `select` may instead take the send branch when the
queue has space, leaving the record on the queue unconsumed without returning
the buffer to the pool. -/
theorem post_close_log_noop (s : LoggerState) (lvl : Int) (m : Bytes)
    (hdone : s.done = true) :
    (∀ b s' r, logStep s lvl m b = some (s', r) → s'.sinks = s.sinks) ∧
    (s.level ≤ lvl →
      logStep s lvl m .doneCh =
        some ({ s with pool := s.pool - 1 + 1 }, LogResult.dropped)) ∧
    (¬ s.level ≤ lvl → ∀ b, logStep s lvl m b = some (s, LogResult.noop)) ∧
    (∃ b s' r, logStep s lvl m b = some (s', r)) ∧
    (∀ b, logfStep s lvl m b = logStep s lvl m b) := by
  refine ⟨?_, ?_, ?_, ?_, fun b => logfStep_eq s lvl m b⟩
  · intro b s' r hstep
    by_cases hp : s.level ≤ lvl
    · cases b with
      | send =>
          by_cases hq : s.queue.length < s.capacity
          · rw [logStep_send_eq s lvl m hp hq] at hstep
            simp only [Option.some.injEq, Prod.mk.injEq] at hstep
            rw [← hstep.1]
          · simp [logStep, hp, hq] at hstep
      | doneCh =>
          simp [logStep, hp, hdone] at hstep
          rw [← hstep.1]
    · simp only [logStep, if_neg hp, Option.some.injEq, Prod.mk.injEq] at hstep
      rw [← hstep.1]
  · intro hp
    simp [logStep, hp, hdone]
  · intro hp b
    simp [logStep, hp]
  · by_cases hp : s.level ≤ lvl
    · exact ⟨.doneCh, { s with pool := s.pool - 1 + 1 }, .dropped,
        by simp [logStep, hp, hdone]⟩
    · exact ⟨.send, s, .noop, by simp [logStep, hp]⟩

/-- C7 witness: the concrete closed logger; a passing post-close call through
the shutdown branch is dropped with its buffer returned to the pool. -/
theorem post_close_log_noop_witness :
    closedState.done = true ∧
      (closedState.level ≤ ERROR →
        logStep closedState ERROR "x".data .doneCh =
          some ({ closedState with pool := closedState.pool - 1 + 1 },
            LogResult.dropped)) :=
  ⟨by decide, (post_close_log_noop closedState ERROR "x".data (by decide)).2.1⟩

/-- C8: an emitted record is exactly
`<timestamp><space><level-tag><space><message><newline>` with the tag being
the record level's name for every in-range level, and the record's bytes are
never mutated afterwards: the drain-and-flush of the writer delivers the very
same byte sequence, verbatim, at the tail of every sink's flushed output. -/
theorem record_layout (s : LoggerState) (lvl : Int) (m : Bytes)
    (hclosed : s.closeDone = false) (hpass : s.level ≤ lvl)
    (hroom : s.queue.length < s.capacity) (h0 : 0 ≤ lvl) (h4 : lvl < 4) :
    ∃ s', logStep s lvl m .send = some (s', LogResult.sent) ∧
      s'.queue.getLast? =
        some (s.ts ++ [' '] ++ (levelNames.getD lvl.toNat "").data ++ [' '] ++ m ++ ['\n']) ∧
      (∀ i, i < s.sinks.length →
        ((closeState s').sinks.getD i defaultSink).flushed =
          (s.sinks.getD i defaultSink).flushed ++ (s.sinks.getD i defaultSink).buffered ++
            s.queue.flatten ++
            (s.ts ++ [' '] ++ (levelNames.getD lvl.toNat "").data ++ [' '] ++ m ++ ['\n'])) := by
  refine ⟨_, logStep_send_eq s lvl m hpass hroom, ?_, ?_⟩
  · show (s.queue ++ [formatRecord s.ts lvl m]).getLast? = _
    rw [List.getLast?_concat, formatRecord, levelTag_of_in_range lvl h0 h4]
  · intro i hi
    have hc2 : LoggerState.closeDone { s with pool := s.pool - 1, queue := s.queue ++ [formatRecord s.ts lvl m] } = false := hclosed
    rw [closeState_sinks _ hc2, getD_map_of_lt _ _ i hi defaultSink defaultSink]
    simp [formatRecord, levelTag_of_in_range lvl h0 h4, List.flatten_append,
      List.append_assoc]

/-- C8 witness: an `INFO` record on the concrete running logger. -/
theorem record_layout_witness :
    runningState.closeDone = false ∧ runningState.level ≤ INFO ∧
      runningState.queue.length < runningState.capacity ∧ 0 ≤ INFO ∧ INFO < 4 ∧
      (∃ s', logStep runningState INFO "msg".data .send = some (s', LogResult.sent) ∧
        s'.queue.getLast? =
          some (runningState.ts ++ [' '] ++ (levelNames.getD INFO.toNat "").data ++
            [' '] ++ "msg".data ++ ['\n']) ∧
        (∀ i, i < runningState.sinks.length →
          ((closeState s').sinks.getD i defaultSink).flushed =
            (runningState.sinks.getD i defaultSink).flushed ++
              (runningState.sinks.getD i defaultSink).buffered ++
              runningState.queue.flatten ++
              (runningState.ts ++ [' '] ++ (levelNames.getD INFO.toNat "").data ++
                [' '] ++ "msg".data ++ ['\n']))) :=
  ⟨by decide, by decide, by decide, by decide, by decide,
    record_layout runningState INFO "msg".data (by decide) (by decide) (by decide)
      (by decide) (by decide)⟩

/-- C2: one effective `Close()` leaves every sink whose underlying writer is
an `io.Closer` with exactly one close call (and the others with none), writes
every record still enqueued at shutdown into every sink and flushes every sink
buffer (the flushed output ends with all drained records, the buffers end
empty), and the event trace of the shutdown work is ordered drain-writes, then
flushes, then closes: event phases are monotone along the trace, every queued
record has its write event to every sink in the trace, and every sink has a
flush event there. -/
theorem close_drain_flush_close (s : LoggerState)
    (hclosed : s.closeDone = false)
    (hcnt : ∀ sk ∈ s.sinks, sk.closeCount = 0) :
    (∀ i, i < s.sinks.length →
        ((closeState s).sinks.getD i defaultSink).closeCount =
          (if (s.sinks.getD i defaultSink).isCloser then 1 else 0)) ∧
    (∀ i, i < s.sinks.length →
        ((closeState s).sinks.getD i defaultSink).flushed =
          (s.sinks.getD i defaultSink).flushed ++ (s.sinks.getD i defaultSink).buffered ++
            s.queue.flatten ∧
        ((closeState s).sinks.getD i defaultSink).buffered = []) ∧
    List.Pairwise (fun a b => Ev.rank a ≤ Ev.rank b) (closeTrace s) ∧
    (∀ line ∈ s.queue, ∀ i, i < s.sinks.length → Ev.write i line ∈ closeTrace s) ∧
    (∀ i, i < s.sinks.length → Ev.flush i ∈ closeTrace s) ∧
    (closeState s).closeDone = true ∧ (closeState s).done = true := by
  have hmem : ∀ i, i < s.sinks.length → s.sinks.getD i defaultSink ∈ s.sinks := by
    intro i hi
    rw [List.getD_eq_getElem _ _ hi]
    exact List.getElem_mem hi
  have htr : closeTrace s =
      drainWrites s.sinks.length s.queue ++ (flushEvs s.sinks.length ++
        (flushEvs s.sinks.length ++ closeEvs 0 s.sinks)) := by
    unfold closeTrace
    rw [if_neg (by simp [hclosed])]
    simp [List.append_assoc]
  refine ⟨?_, ?_, ?_, ?_, ?_, closeState_closeDone s, ?_⟩
  · intro i hi
    rw [closeState_sinks s hclosed, getD_map_of_lt _ _ i hi defaultSink defaultSink,
      List.getD_eq_getElem s.sinks defaultSink hi]
    have h0 : (s.sinks[i]).closeCount = 0 := hcnt _ (List.getElem_mem hi)
    by_cases hc : (s.sinks[i]).isCloser <;> simp [hc, h0]
  · intro i hi
    rw [closeState_sinks s hclosed, getD_map_of_lt _ _ i hi defaultSink defaultSink]
    simp [List.append_assoc]
  · rw [htr]
    rw [List.pairwise_append]
    refine ⟨?_, ?_, ?_⟩
    · refine List.pairwise_of_forall_mem_list fun a ha b _ => ?_
      rw [rank_of_mem_drainWrites a _ _ ha]
      exact Nat.zero_le _
    · rw [List.pairwise_append]
      refine ⟨?_, ?_, ?_⟩
      · refine List.pairwise_of_forall_mem_list fun a ha b hb => ?_
        rw [rank_of_mem_flushEvs a _ ha, rank_of_mem_flushEvs b _ hb]
      · rw [List.pairwise_append]
        refine ⟨?_, ?_, ?_⟩
        · refine List.pairwise_of_forall_mem_list fun a ha b hb => ?_
          rw [rank_of_mem_flushEvs a _ ha, rank_of_mem_flushEvs b _ hb]
        · refine List.pairwise_of_forall_mem_list fun a ha b hb => ?_
          rw [rank_of_mem_closeEvs a _ _ ha, rank_of_mem_closeEvs b _ _ hb]
        · intro a ha b hb
          rw [rank_of_mem_flushEvs a _ ha, rank_of_mem_closeEvs b _ _ hb]
          omega
      · intro a ha b hb
        rw [rank_of_mem_flushEvs a _ ha]
        rcases List.mem_append.mp hb with hb | hb
        · rw [rank_of_mem_flushEvs b _ hb]
        · rw [rank_of_mem_closeEvs b _ _ hb]
          omega
    · intro a ha b _
      rw [rank_of_mem_drainWrites a _ _ ha]
      exact Nat.zero_le _
  · intro line hline i hi
    rw [htr]
    refine List.mem_append.mpr (Or.inl ?_)
    rw [drainWrites, List.mem_flatMap]
    exact ⟨line, hline, List.mem_map.mpr ⟨i, List.mem_range.mpr hi, rfl⟩⟩
  · intro i hi
    rw [htr]
    refine List.mem_append.mpr (Or.inr (List.mem_append.mpr (Or.inl ?_)))
    rw [flushEvs]
    exact List.mem_map.mpr ⟨i, List.mem_range.mpr hi, rfl⟩
  · unfold closeState
    rw [if_neg (by simp [hclosed])]

/-- C2 witness: the concrete logger with two pending records, one closeable
sink and one plain sink. -/
theorem close_drain_flush_close_witness :
    queuedState.closeDone = false ∧ (∀ sk ∈ queuedState.sinks, sk.closeCount = 0) ∧
      (∀ i, i < queuedState.sinks.length →
        ((closeState queuedState).sinks.getD i defaultSink).closeCount =
          (if (queuedState.sinks.getD i defaultSink).isCloser then 1 else 0)) ∧
      List.Pairwise (fun a b => Ev.rank a ≤ Ev.rank b) (closeTrace queuedState) :=
  ⟨by decide, by decide,
    (close_drain_flush_close queuedState (by decide) (by decide)).1,
    (close_drain_flush_close queuedState (by decide) (by decide)).2.2.1⟩

/-- C5: FIFO end to end.  A sequence of passing `log` calls by one producer
(each completing through the send case) appends its records to the queue in
call order; the running writer always dequeues the head of the queue, writing
it to every sink; and the drain performed at shutdown writes to every sink
exactly the queue's records, in queue order — the queue order is the order in
which records reach each sink. -/
theorem fifo_order_preserved (s : LoggerState) (items : List (Int × Bytes))
    (hrun : s.done = false) (hclosed : s.closeDone = false)
    (hpass : ∀ p ∈ items, s.level ≤ p.1)
    (hcap : s.queue.length + items.length ≤ s.capacity) :
    ∃ s', logAll s items = some s' ∧
      s'.queue = s.queue ++ items.map (fun p => formatRecord s.ts p.1 p.2) ∧
      s'.sinks = s.sinks ∧
      (∀ i, i < s'.sinks.length → writesTo i (closeTrace s') = s'.queue) ∧
      (∀ t : LoggerState, ∀ line rest, t.queue = line :: rest →
        (writerStep t).queue = rest ∧ (writerStep t).sinks = writeRecord t.sinks line) := by
  have hws : ∀ t : LoggerState, ∀ line rest, t.queue = line :: rest →
      (writerStep t).queue = rest ∧ (writerStep t).sinks = writeRecord t.sinks line := by
    intro t line rest ht
    constructor <;> simp [writerStep, ht]
  revert hrun hclosed hpass hcap
  induction items generalizing s with
  | nil =>
      intro hrun hclosed hpass hcap
      exact ⟨s, rfl, by simp, rfl, fun i hi => writesTo_closeTrace s hclosed i hi, hws⟩
  | cons p rest ih =>
      intro hrun hclosed hpass hcap
      obtain ⟨lvl, m⟩ := p
      have hp : s.level ≤ lvl := hpass _ (List.mem_cons_self _ _)
      have hroom : s.queue.length < s.capacity := by
        simp only [List.length_cons] at hcap
        omega
      have h1 : logAll s ((lvl, m) :: rest) =
          logAll { s with pool := s.pool - 1, queue := s.queue ++ [formatRecord s.ts lvl m] } rest := by
        rw [logAll, logStep_send_eq s lvl m hp hroom]
      obtain ⟨s', hall, hq, hsinks, hw, -⟩ :=
        ih { s with pool := s.pool - 1, queue := s.queue ++ [formatRecord s.ts lvl m] }
          hrun hclosed (fun q hq => hpass q (List.mem_cons_of_mem _ hq))
          (by simp only [List.length_append, List.length_cons, List.length_nil] at hcap ⊢; omega)
      refine ⟨s', by rw [h1]; exact hall, ?_, hsinks, hw, hws⟩
      rw [hq]
      simp [List.append_assoc]

/-- C5 witness: three records logged in order on the concrete running logger
end up on the queue, and hence at every sink, in that order. -/
theorem fifo_order_preserved_witness :
    runningState.done = false ∧ runningState.closeDone = false ∧
      (∀ p ∈ [((1 : Int), "a".data), ((2 : Int), "b".data), ((3 : Int), "c".data)],
        runningState.level ≤ p.1) ∧
      runningState.queue.length +
          [((1 : Int), "a".data), ((2 : Int), "b".data), ((3 : Int), "c".data)].length ≤
        runningState.capacity ∧
      (∃ s', logAll runningState
          [((1 : Int), "a".data), ((2 : Int), "b".data), ((3 : Int), "c".data)] = some s' ∧
        s'.queue = runningState.queue ++
          [((1 : Int), "a".data), ((2 : Int), "b".data), ((3 : Int), "c".data)].map
            (fun p => formatRecord runningState.ts p.1 p.2) ∧
        s'.sinks = runningState.sinks ∧
        (∀ i, i < s'.sinks.length → writesTo i (closeTrace s') = s'.queue) ∧
        (∀ t : LoggerState, ∀ line rest, t.queue = line :: rest →
          (writerStep t).queue = rest ∧ (writerStep t).sinks = writeRecord t.sinks line)) :=
  ⟨by decide, by decide, by decide, by decide,
    fifo_order_preserved runningState
      [((1 : Int), "a".data), ((2 : Int), "b".data), ((3 : Int), "c".data)]
      (by decide) (by decide) (by decide) (by decide)⟩

end Speedlog
